import Mathlib

/-!
# Verification of the DRM PRIME video buffer pool

Shallow embedding of the buffer-pool and buffer-lifecycle code of
`xbmc/cores/VideoPlayer/DVDCodecs/Video/DVDVideoCodecDRMPRIME.cpp`:
the classes `CVideoBufferDRMPRIME` (a pooled slot holding a frame-buffer
registration id, DRM GEM memory handles and an `AVFrame`) and
`CVideoBufferPoolDRMPRIME` (the pool with `m_all` / `m_used` / `m_free`),
plus the publication tail of `CDVDVideoCodecDRMPRIME::GetPicture`.

Kernel interactions (`drmModeRmFB`, `drmIoctl(DRM_IOCTL_GEM_CLOSE)`) are
modelled as an emitted trace of calls; the source discards their return
values, which the embedding mirrors by parametrising a variant over a
result oracle and showing the behaviour does not depend on it.
-/

namespace DRMPrime

/-- `AV_DRM_MAX_PLANES` from libavutil: the fixed size of `m_handles`. -/
def AV_DRM_MAX_PLANES : Nat := 4

/-- The payload state of an `AVFrame` object: unreferenced (after
`av_frame_unref`, or freshly allocated) or holding a decoded frame,
identified abstractly by a payload number. -/
inductive FrameData where
  | empty : FrameData
  | holding : Nat → FrameData
deriving DecidableEq

/-- A kernel release call issued during buffer teardown: `drmModeRmFB`
on a frame-buffer registration id, or `drmIoctl(DRM_IOCTL_GEM_CLOSE)`
on a GEM memory handle. -/
inductive KernelCall where
  | rmFB : Nat → KernelCall
  | gemClose : Nat → KernelCall
deriving DecidableEq

/-- One `CVideoBufferDRMPRIME` slot.  `m_fb_id` and the entries of
`m_handles` use 0 for "absent", as the source does.  `m_pFrame` is the
`AVFrame*` member: `none` models a null pointer (failed
`av_frame_alloc`), `some fd` an allocated frame object in state `fd`.
`m_refCount` is the external holder count of the `CVideoBuffer` base
class. -/
structure Slot where
  m_id : Nat
  m_fb_id : Nat
  m_handles : List Nat
  m_pFrame : Option FrameData
  m_refCount : Nat
deriving DecidableEq

/-- Default slot used as the out-of-range fallback of `List.getD`. -/
def dfltSlot : Slot :=
  { m_id := 0, m_fb_id := 0, m_handles := [], m_pFrame := none, m_refCount := 0 }

/-- A slot is idle when it holds no kernel resources and no frame data:
`m_fb_id` absent, every handle absent, and the frame object (if
allocated) unreferenced. -/
def SlotIdle (b : Slot) : Prop :=
  b.m_fb_id = 0 ∧ (∀ h ∈ b.m_handles, h = 0) ∧
    (b.m_pFrame = none ∨ b.m_pFrame = some FrameData.empty)

instance (b : Slot) : Decidable (SlotIdle b) := by
  unfold SlotIdle; infer_instance

/-- The handle-closing loop of `CVideoBufferDRMPRIME::Unref`: for each
plane index in ascending order, if the handle is non-zero, issue
`DRM_IOCTL_GEM_CLOSE` and zero the entry.  Returns the emitted calls and
the updated handle array. -/
def closeHandles : List Nat → List KernelCall × List Nat
  | [] => ([], [])
  | h :: rest =>
    let r := closeHandles rest
    if h ≠ 0 then (KernelCall.gemClose h :: r.1, 0 :: r.2) else (r.1, h :: r.2)

/-- `CVideoBufferDRMPRIME::Unref`: remove the frame-buffer registration
if present, close each held GEM handle in ascending plane order, then
`av_frame_unref` the frame object.  Returns the emitted kernel calls and
the updated slot. -/
def slotUnref (b : Slot) : List KernelCall × Slot :=
  let fbCalls := if b.m_fb_id ≠ 0 then [KernelCall.rmFB b.m_fb_id] else []
  let fb' := if b.m_fb_id ≠ 0 then 0 else b.m_fb_id
  let r := closeHandles b.m_handles
  (fbCalls ++ r.1,
   { b with m_fb_id := fb', m_handles := r.2,
            m_pFrame := b.m_pFrame.map (fun _ => FrameData.empty) })

/-- The handle-closing loop with the kernel's per-call result recorded
(the source discards it): each emitted call is paired with the success
bit the oracle `res` assigns to it. -/
def closeHandlesR (res : KernelCall → Bool) :
    List Nat → List (KernelCall × Bool) × List Nat
  | [] => ([], [])
  | h :: rest =>
    let r := closeHandlesR res rest
    if h ≠ 0 then
      ((KernelCall.gemClose h, res (KernelCall.gemClose h)) :: r.1, 0 :: r.2)
    else (r.1, h :: r.2)

/-- `Unref` with kernel results recorded: the source ignores the return
values of `drmModeRmFB` and `drmIoctl`, so the oracle `res` decides each
call's outcome but influences nothing. -/
def slotUnrefR (res : KernelCall → Bool) (b : Slot) :
    List (KernelCall × Bool) × Slot :=
  let fbCalls :=
    if b.m_fb_id ≠ 0 then
      [(KernelCall.rmFB b.m_fb_id, res (KernelCall.rmFB b.m_fb_id))]
    else []
  let fb' := if b.m_fb_id ≠ 0 then 0 else b.m_fb_id
  let r := closeHandlesR res b.m_handles
  (fbCalls ++ r.1,
   { b with m_fb_id := fb', m_handles := r.2,
            m_pFrame := b.m_pFrame.map (fun _ => FrameData.empty) })

/-- `CVideoBufferDRMPRIME::SetRef`: `av_frame_move_ref(m_pFrame, frame)`
drops the frame object's previous contents and moves the new frame in.
It touches neither `m_fb_id` nor `m_handles`.  On a null `m_pFrame` the
move has no object to write to (the source never checks for this). -/
def slotSetRef (b : Slot) (frame : FrameData) : Slot :=
  { b with m_pFrame := b.m_pFrame.map (fun _ => frame) }

/-- Modelled from the spec: `CVideoBuffer::Acquire` (the
reference-counted handle base class, outside the sources at hand)
increments the external holder count (spec §4.3); together with the zero
initial count of a fresh slot this yields the count of 1 that `Get`
hands out. -/
def acquireSlot (b : Slot) : Slot :=
  { b with m_refCount := b.m_refCount + 1 }

/-- The `CVideoBufferDRMPRIME` constructor: `av_frame_alloc` the frame
object (`allocOK` models whether the allocation succeeds; the source
does not check), with no kernel resources held.  The zero initial
reference count is modelled from the spec (`CVideoBuffer` base class,
outside the sources at hand). -/
def newSlot (id : Nat) (allocOK : Bool) : Slot :=
  { m_id := id, m_fb_id := 0,
    m_handles := List.replicate AV_DRM_MAX_PLANES 0,
    m_pFrame := if allocOK then some FrameData.empty else none,
    m_refCount := 0 }

/-- `CVideoBufferPoolDRMPRIME` state: the slot table `m_all` (indexed by
slot id), and the deques `m_used` and `m_free` of ids (front = deque
front). -/
structure PoolState where
  m_all : List Slot
  m_used : List Nat
  m_free : List Nat
deriving DecidableEq

/-- The freshly constructed, empty pool. -/
def initPool : PoolState := { m_all := [], m_used := [], m_free := [] }

/-- In-place update of the slot object at index `i` of the slot table
(the source holds pointers; mutation through `m_all[i]` is modelled as a
positional update). -/
def modifySlot (f : Slot → Slot) : Nat → List Slot → List Slot
  | _, [] => []
  | 0, b :: rest => f b :: rest
  | i + 1, b :: rest => b :: modifySlot f i rest

/-- `CVideoBufferPoolDRMPRIME::Get` (the body runs under the pool lock):
if `m_free` is non-empty, pop the front id, push it onto the back of
`m_used` and take the existing slot; otherwise construct a new slot with
id `m_all.size()`, append it to `m_all` and push its id onto `m_used`.
Either way, `Acquire` the buffer and return it.  `allocOK` is the
outcome of `av_frame_alloc` inside the constructor on the allocation
path. -/
def poolGet (allocOK : Bool) (s : PoolState) : Nat × PoolState :=
  match s.m_free with
  | idx :: rest =>
    (idx, { m_all := modifySlot acquireSlot idx s.m_all,
            m_used := s.m_used ++ [idx], m_free := rest })
  | [] =>
    let id := s.m_all.length
    (id, { m_all := s.m_all ++ [acquireSlot (newSlot id allocOK)],
           m_used := s.m_used ++ [id], m_free := [] })

/-- The `while` loop of `CVideoBufferPoolDRMPRIME::Return`: erase the
first occurrence of `id` from `m_used` (and stop), leaving the list
unchanged when `id` is absent. -/
def eraseFirst (id : Nat) : List Nat → List Nat
  | [] => []
  | x :: rest => if x = id then rest else x :: eraseFirst id rest

/-- `CVideoBufferPoolDRMPRIME::Return` (the body runs under the pool
lock): `m_all[id]->Unref()`, erase the first occurrence of `id` from
`m_used`, push `id` onto the back of `m_free`.  There is no check that
`id` is in `m_used`.  Returns the kernel calls `Unref` emitted and the
new pool state. -/
def poolReturn (id : Nat) (s : PoolState) : List KernelCall × PoolState :=
  ((slotUnref (s.m_all.getD id dfltSlot)).1,
   { m_all := modifySlot (fun b => (slotUnref b).2) id s.m_all,
     m_used := eraseFirst id s.m_used,
     m_free := s.m_free ++ [id] })

/-- One pool operation, as issued by clients. -/
inductive Step where
  | get : Bool → Step
  | ret : Nat → Step

/-- State transition of one pool operation (`Get` and `Return` serialize
through the pool lock, so a call sequence is a sequence of atomic
steps). -/
def stepPool : Step → PoolState → PoolState
  | Step.get ok, s => (poolGet ok s).2
  | Step.ret id, s => (poolReturn id s).2

/-- A call sequence from `s` to `s'` respecting the documented `Return`
contract: `Return(id)` is only issued for an id currently in `m_used`
(spec §4.2; the reference-counting layer guarantees exactly one `Return`
per handout). -/
inductive ValidSeq : PoolState → List Step → PoolState → Prop where
  | nil (s : PoolState) : ValidSeq s [] s
  | get (s s' : PoolState) (ok : Bool) (steps : List Step) :
      ValidSeq (stepPool (Step.get ok) s) steps s' →
      ValidSeq s (Step.get ok :: steps) s'
  | ret (s s' : PoolState) (id : Nat) (steps : List Step) :
      id ∈ s.m_used →
      ValidSeq (stepPool (Step.ret id) s) steps s' →
      ValidSeq s (Step.ret id :: steps) s'

/-- Well-formedness of a pool state: `m_used` and `m_free` are
duplicate-free and disjoint, and together they cover exactly the domain
of the slot table. -/
def PoolWF (s : PoolState) : Prop :=
  s.m_used.Nodup ∧ s.m_free.Nodup ∧
  (∀ i, i ∈ s.m_used → i ∉ s.m_free) ∧
  (∀ i, (i ∈ s.m_used ∨ i ∈ s.m_free) ↔ i < s.m_all.length)

/-! ## Basic lemmas about the embedded operations -/

theorem modifySlot_nil (f : Slot → Slot) (i : Nat) :
    modifySlot f i [] = [] := by
  cases i <;> rfl

theorem modifySlot_length (f : Slot → Slot) (i : Nat) (l : List Slot) :
    (modifySlot f i l).length = l.length := by
  induction l generalizing i with
  | nil => simp [modifySlot_nil]
  | cons b rest ih =>
    cases i with
    | zero => rfl
    | succ j => simp [modifySlot, ih]

theorem getD_modifySlot_ne (f : Slot → Slot) (i j : Nat) (l : List Slot)
    (h : i ≠ j) : (modifySlot f j l).getD i dfltSlot = l.getD i dfltSlot := by
  induction l generalizing i j with
  | nil => simp [modifySlot_nil]
  | cons b rest ih =>
    cases j with
    | zero =>
      cases i with
      | zero => exact absurd rfl h
      | succ i' => simp [modifySlot, List.getD_cons_succ]
    | succ j' =>
      cases i with
      | zero => simp [modifySlot, List.getD_cons_zero]
      | succ i' =>
        simp only [modifySlot, List.getD_cons_succ]
        exact ih i' j' (fun hc => h (by simp [hc]))

theorem getD_modifySlot_eq (f : Slot → Slot) (j : Nat) (l : List Slot)
    (h : j < l.length) :
    (modifySlot f j l).getD j dfltSlot = f (l.getD j dfltSlot) := by
  induction l generalizing j with
  | nil => simp at h
  | cons b rest ih =>
    cases j with
    | zero => rfl
    | succ j' =>
      simp only [modifySlot, List.getD_cons_succ]
      exact ih j' (by simpa using h)

theorem map_id_modifySlot (f : Slot → Slot) (hf : ∀ b, (f b).m_id = b.m_id)
    (i : Nat) (l : List Slot) :
    (modifySlot f i l).map Slot.m_id = l.map Slot.m_id := by
  induction l generalizing i with
  | nil => simp [modifySlot_nil]
  | cons b rest ih =>
    cases i with
    | zero => simp [modifySlot, hf]
    | succ j => simp [modifySlot, ih]

theorem getD_append_length (l : List Slot) (b : Slot) :
    (l ++ [b]).getD l.length dfltSlot = b := by
  induction l with
  | nil => rfl
  | cons x rest ih =>
    simp only [List.cons_append, List.length_cons, List.getD_cons_succ]
    exact ih

theorem eraseFirst_eq_erase (id : Nat) (l : List Nat) :
    eraseFirst id l = l.erase id := by
  induction l with
  | nil => rfl
  | cons x rest ih =>
    by_cases hx : x = id
    · simp [eraseFirst, hx, List.erase_cons]
    · simp [eraseFirst, hx, List.erase_cons, ih]

theorem closeHandles_snd (l : List Nat) :
    (closeHandles l).2 = List.replicate l.length 0 := by
  induction l with
  | nil => rfl
  | cons h rest ih =>
    by_cases h0 : h = 0
    · simp [closeHandles, h0, ih, List.replicate_succ]
    · simp [closeHandles, h0, ih, List.replicate_succ]

theorem closeHandles_snd_all_zero (l : List Nat) :
    ∀ x ∈ (closeHandles l).2, x = 0 := by
  intro x hx
  rw [closeHandles_snd] at hx
  exact List.eq_of_mem_replicate hx

theorem closeHandles_of_zero (l : List Nat) (h : ∀ x ∈ l, x = 0) :
    closeHandles l = ([], l) := by
  induction l with
  | nil => rfl
  | cons x rest ih =>
    have hx : x = 0 := h x (List.mem_cons_self x rest)
    have hr : closeHandles rest = ([], rest) :=
      ih (fun y hy => h y (List.mem_cons_of_mem x hy))
    simp [closeHandles, hx, hr]

theorem gemClose_mem_closeHandles (l : List Nat) (h : Nat)
    (hmem : h ∈ l) (h0 : h ≠ 0) : KernelCall.gemClose h ∈ (closeHandles l).1 := by
  induction l with
  | nil => simp at hmem
  | cons x rest ih =>
    rcases List.mem_cons.mp hmem with h1 | h1
    · subst h1
      simp [closeHandles, h0]
    · by_cases hx : x = 0
      · simpa [closeHandles, hx] using ih h1
      · simp only [closeHandles, ne_eq, hx, not_false_eq_true, if_pos,
          ite_true]
        exact List.mem_cons_of_mem _ (ih h1)

theorem closeHandles_fst_shape (l : List Nat) :
    ∀ c ∈ (closeHandles l).1, ∃ h, c = KernelCall.gemClose h ∧ h ≠ 0 ∧ h ∈ l := by
  induction l with
  | nil => intro c hc; simp [closeHandles] at hc
  | cons x rest ih =>
    intro c hc
    by_cases hx : x = 0
    · simp only [closeHandles, hx, ne_eq, not_true_eq_false, ite_false,
        reduceIte] at hc
      obtain ⟨h, h1, h2, h3⟩ := ih c hc
      exact ⟨h, h1, h2, List.mem_cons_of_mem x h3⟩
    · simp only [closeHandles, ne_eq, hx, not_false_eq_true, if_pos,
        ite_true] at hc
      rcases List.mem_cons.mp hc with h1 | h1
      · exact ⟨x, h1, hx, List.mem_cons_self x rest⟩
      · obtain ⟨h, h2, h3, h4⟩ := ih c h1
        exact ⟨h, h2, h3, List.mem_cons_of_mem x h4⟩

theorem closeHandles_count (l : List Nat) (h : Nat) (h0 : h ≠ 0) :
    (closeHandles l).1.count (KernelCall.gemClose h) = l.count h := by
  induction l with
  | nil => rfl
  | cons x rest ih =>
    by_cases hx : x = 0
    · simp [closeHandles, hx, List.count_cons, ih, Ne.symm h0]
    · by_cases hxe : x = h
      · subst hxe
        simp [closeHandles, hx, List.count_cons, ih]
      · have h1 : ¬(KernelCall.gemClose x == KernelCall.gemClose h) := by
          simp [hxe]
        have h2 : ¬(x == h) := by simp [hxe]
        simp [closeHandles, hx, List.count_cons, h1, h2, ih]

theorem closeHandlesR_fst_map (res : KernelCall → Bool) (l : List Nat) :
    ((closeHandlesR res l).1.map Prod.fst) = (closeHandles l).1 := by
  induction l with
  | nil => rfl
  | cons x rest ih =>
    by_cases hx : x = 0
    · simp [closeHandlesR, closeHandles, hx, ih]
    · simp [closeHandlesR, closeHandles, hx, ih]

theorem closeHandlesR_snd (res : KernelCall → Bool) (l : List Nat) :
    (closeHandlesR res l).2 = (closeHandles l).2 := by
  induction l with
  | nil => rfl
  | cons x rest ih =>
    by_cases hx : x = 0
    · simp [closeHandlesR, closeHandles, hx, ih]
    · simp [closeHandlesR, closeHandles, hx, ih]

theorem slotUnref_idle (b : Slot) : SlotIdle (slotUnref b).2 := by
  refine ⟨?_, ?_, ?_⟩
  · by_cases h : b.m_fb_id = 0 <;> simp [slotUnref, h]
  · intro h hmem
    by_cases hfb : b.m_fb_id = 0 <;>
      exact closeHandles_snd_all_zero b.m_handles h (by simpa [slotUnref, hfb] using hmem)
  · cases hp : b.m_pFrame with
    | none => left; simp [slotUnref, hp]
    | some fd => right; simp [slotUnref, hp]

theorem slotUnref_of_idle (b : Slot) (h : SlotIdle b) :
    slotUnref b = ([], b) := by
  obtain ⟨hfb, hh, hp⟩ := h
  have hch : closeHandles b.m_handles = ([], b.m_handles) :=
    closeHandles_of_zero b.m_handles hh
  cases b with
  | mk id fb handles pFrame rc =>
    simp only at hfb hh hp
    subst hfb
    rcases hp with hp | hp <;>
      simp [slotUnref, hp, hch]

/-! ## Preservation of pool well-formedness -/

theorem poolWF_init : PoolWF initPool := by
  refine ⟨List.nodup_nil, List.nodup_nil, ?_, ?_⟩ <;> simp [initPool]

theorem poolWF_get (ok : Bool) (s : PoolState) (h : PoolWF s) :
    PoolWF (poolGet ok s).2 := by
  obtain ⟨hu, hf, hdis, hcov⟩ := h
  cases hfree : s.m_free with
  | cons idx rest =>
    have hidxfree : idx ∈ s.m_free := by
      rw [hfree]; exact List.mem_cons_self idx rest
    have hidxused : idx ∉ s.m_used := fun hc => hdis idx hc hidxfree
    have hrest : rest.Nodup := by
      rw [hfree] at hf; exact (List.nodup_cons.mp hf).2
    have hidxrest : idx ∉ rest := by
      rw [hfree] at hf; exact (List.nodup_cons.mp hf).1
    have hsubrest : ∀ i ∈ rest, i ∈ s.m_free := by
      intro i hi; rw [hfree]; exact List.mem_cons_of_mem idx hi
    refine ⟨?_, ?_, ?_, ?_⟩
    · simp only [poolGet, hfree]
      simp [List.nodup_append, hu, hidxused]
    · simpa only [poolGet, hfree] using hrest
    · intro i hiu hif
      simp only [poolGet, hfree] at hiu hif
      rcases List.mem_append.mp hiu with h1 | h1
      · exact hdis i h1 (hsubrest i hif)
      · have : i = idx := by simpa using h1
        exact hidxrest (this ▸ hif)
    · intro i
      simp only [poolGet, hfree, modifySlot_length, List.mem_append,
        List.mem_singleton]
      rw [← hcov i, hfree]
      simp only [List.mem_cons]
      tauto
  | nil =>
    have hused_lt : ∀ i ∈ s.m_used, i < s.m_all.length := by
      intro i hi; exact (hcov i).mp (Or.inl hi)
    refine ⟨?_, ?_, ?_, ?_⟩
    · simp only [poolGet, hfree]
      have hlen : s.m_all.length ∉ s.m_used := fun hc =>
        Nat.lt_irrefl _ (hused_lt _ hc)
      simp [List.nodup_append, hu, hlen]
    · simp [poolGet, hfree]
    · intro i hiu hif
      simp only [poolGet, hfree] at hif
      simp at hif
    · intro i
      simp only [poolGet, hfree, List.length_append, List.mem_append,
        List.mem_singleton, List.length_singleton]
      have hc := hcov i
      rw [hfree] at hc
      simp only [List.not_mem_nil, or_false] at hc
      constructor
      · rintro (⟨h1 | h1⟩ | h1)
        · exact Nat.lt_succ_of_lt (hc.mp h1)
        · omega
        · simp at h1
      · intro h1
        rcases Nat.lt_succ_iff_lt_or_eq.mp h1 with h2 | h2
        · exact Or.inl (Or.inl (hc.mpr h2))
        · exact Or.inl (Or.inr (by simpa using h2))

theorem poolWF_ret (id : Nat) (s : PoolState) (h : PoolWF s)
    (hid : id ∈ s.m_used) : PoolWF (poolReturn id s).2 := by
  obtain ⟨hu, hf, hdis, hcov⟩ := h
  have hidfree : id ∉ s.m_free := hdis id hid
  refine ⟨?_, ?_, ?_, ?_⟩
  · simp only [poolReturn, eraseFirst_eq_erase]
    exact hu.erase id
  · simp only [poolReturn]
    simp [List.nodup_append, hf, hidfree]
  · intro i hiu hif
    simp only [poolReturn, eraseFirst_eq_erase] at hiu hif
    have h1 : i ≠ id ∧ i ∈ s.m_used := (hu.mem_erase_iff).mp hiu
    rcases List.mem_append.mp hif with h2 | h2
    · exact hdis i h1.2 h2
    · exact h1.1 (by simpa using h2)
  · intro i
    simp only [poolReturn, eraseFirst_eq_erase, modifySlot_length,
      List.mem_append, List.mem_singleton]
    rw [← hcov i]
    rw [hu.mem_erase_iff]
    by_cases hieq : i = id
    · subst hieq; tauto
    · tauto

theorem validSeq_wf {s : PoolState} {steps : List Step} {s' : PoolState}
    (hrun : ValidSeq s steps s') (h : PoolWF s) : PoolWF s' := by
  induction hrun with
  | nil s => exact h
  | get s s' ok steps _ ih => exact ih (poolWF_get ok s h)
  | ret s s' id steps hid _ ih => exact ih (poolWF_ret id s h hid)

/-- C1: for every sequence of `Get()` and `Return(id)` calls starting
from the empty pool and respecting the documented `Return` contract
(`Return` only on an id currently in `m_used`, spec §4.2), the sets
`m_used` and `m_free` remain disjoint — no id is ever in both
simultaneously — and their union is exactly the set of ids of all slots
ever created, i.e. the domain `{0, …, m_all.length - 1}` of the slot
table. -/
theorem pool_used_free_invariant (steps : List Step) (s' : PoolState)
    (hrun : ValidSeq initPool steps s') :
    (∀ i, ¬(i ∈ s'.m_used ∧ i ∈ s'.m_free)) ∧
    (∀ i, (i ∈ s'.m_used ∨ i ∈ s'.m_free) ↔ i < s'.m_all.length) := by
  obtain ⟨hu, hf, hdis, hcov⟩ := validSeq_wf hrun poolWF_init
  exact ⟨fun i hc => hdis i hc.1 hc.2, hcov⟩

/-- Pool state after the sample trace Get, Get, Return 0, Get: two live
slots and one recycled slot. -/
def sampleState : PoolState :=
  stepPool (Step.get true)
    (stepPool (Step.ret 0)
      (stepPool (Step.get true) (stepPool (Step.get true) initPool)))

/-- Witness for C1 at the concrete trace Get, Get, Return 0, Get. -/
theorem pool_used_free_invariant_witness :
    (∀ i, ¬(i ∈ sampleState.m_used ∧ i ∈ sampleState.m_free)) ∧
    (∀ i, (i ∈ sampleState.m_used ∨ i ∈ sampleState.m_free) ↔
      i < sampleState.m_all.length) :=
  pool_used_free_invariant
    [Step.get true, Step.get true, Step.ret 0, Step.get true] sampleState
    (ValidSeq.get _ _ _ _ (ValidSeq.get _ _ _ _
      (ValidSeq.ret _ _ _ _ (by decide)
        (ValidSeq.get _ _ _ _ (ValidSeq.nil _)))))

/-! ## Concrete example slots and states -/

/-- A live slot: frame-buffer registration 5, GEM handles on planes 0, 2
and 3 (with 7 held twice), holding frame payload 3, one external
holder. -/
def liveSlotEx : Slot :=
  { m_id := 0, m_fb_id := 5, m_handles := [7, 0, 7, 9],
    m_pFrame := some (FrameData.holding 3), m_refCount := 1 }

/-- An idle slot: no kernel resources, unreferenced frame object. -/
def idleSlotEx : Slot :=
  { m_id := 1, m_fb_id := 0, m_handles := [0, 0, 0, 0],
    m_pFrame := some FrameData.empty, m_refCount := 0 }

/-- A pool with one idle, reference-free slot on the free list. -/
def freeStateEx : PoolState :=
  { m_all := [{ m_id := 0, m_fb_id := 0, m_handles := [0, 0, 0, 0],
                m_pFrame := some FrameData.empty, m_refCount := 0 }],
    m_used := [], m_free := [0] }

theorem freeStateEx_wf : PoolWF freeStateEx := by
  refine ⟨by decide, by decide, by decide, ?_⟩
  intro i
  constructor
  · rintro (h | h) <;> simp_all [freeStateEx]
  · intro h
    have h1 : i < 1 := h
    right
    simp [freeStateEx, Nat.lt_one_iff.mp h1]

/-- The pool after `Get()` then `Return(0)` on the empty pool: one slot,
torn down and on the free list, nothing in use. -/
def poolOneFree : PoolState := (poolReturn 0 (poolGet true initPool).2).2

/-! ## C2: behaviour of Get -/

/-- C2: from any well-formed pool state whose free slots carry no
external references (spec §3: every id in `free` has reference count
zero — the count is managed by the reference-counting layer, modelled
from the spec), `Get()` behaves as specified: with `m_free` non-empty it
pops the front id, moves it to `m_used` and returns that slot with
reference count 1 and no new slot created; with `m_free` empty it
creates a slot whose id is the current slot count, appends it to
`m_all`, adds the id to `m_used` and returns it with reference count 1;
in both cases the returned id is no longer reachable via `m_free`. -/
theorem poolGet_behavior (ok : Bool) (s : PoolState) (hwf : PoolWF s)
    (hrc : ∀ i ∈ s.m_free, (s.m_all.getD i dfltSlot).m_refCount = 0) :
    (∀ idx rest, s.m_free = idx :: rest →
      (poolGet ok s).1 = idx ∧
      (poolGet ok s).2.m_free = rest ∧
      (poolGet ok s).2.m_used = s.m_used ++ [idx] ∧
      (poolGet ok s).2.m_all.length = s.m_all.length ∧
      ((poolGet ok s).2.m_all.getD idx dfltSlot).m_refCount = 1) ∧
    (s.m_free = [] →
      (poolGet ok s).1 = s.m_all.length ∧
      (poolGet ok s).2.m_all.length = s.m_all.length + 1 ∧
      (poolGet ok s).2.m_used = s.m_used ++ [s.m_all.length] ∧
      ((poolGet ok s).2.m_all.getD s.m_all.length dfltSlot).m_refCount = 1 ∧
      ((poolGet ok s).2.m_all.getD s.m_all.length dfltSlot).m_id =
        s.m_all.length) ∧
    (poolGet ok s).1 ∉ (poolGet ok s).2.m_free := by
  obtain ⟨hu, hf, hdis, hcov⟩ := hwf
  refine ⟨?_, ?_, ?_⟩
  · intro idx rest hfree
    have hmem : idx ∈ s.m_free := by
      rw [hfree]; exact List.mem_cons_self idx rest
    have hlt : idx < s.m_all.length := (hcov idx).mp (Or.inr hmem)
    refine ⟨?_, ?_, ?_, ?_, ?_⟩
    · simp [poolGet, hfree]
    · simp [poolGet, hfree]
    · simp [poolGet, hfree]
    · simp [poolGet, hfree, modifySlot_length]
    · simp only [poolGet, hfree]
      rw [getD_modifySlot_eq _ _ _ hlt]
      show (s.m_all.getD idx dfltSlot).m_refCount + 1 = 1
      rw [hrc idx hmem]
  · intro hfree
    refine ⟨?_, ?_, ?_, ?_, ?_⟩
    · simp [poolGet, hfree]
    · simp [poolGet, hfree]
    · simp [poolGet, hfree]
    · simp only [poolGet, hfree]
      rw [getD_append_length]
      simp [acquireSlot, newSlot]
    · simp only [poolGet, hfree]
      rw [getD_append_length]
      simp [acquireSlot, newSlot]
  · cases hfree : s.m_free with
    | nil => simp [poolGet, hfree]
    | cons idx rest =>
      have : idx ∉ rest := by
        rw [hfree] at hf
        exact (List.nodup_cons.mp hf).1
      simpa [poolGet, hfree] using this

/-- Witness for C2 at a concrete one-free-slot pool and at the empty
pool's allocation path. -/
theorem poolGet_behavior_witness :
    ((poolGet true freeStateEx).1 = 0 ∧
     (poolGet true freeStateEx).2.m_free = [] ∧
     (poolGet true freeStateEx).2.m_used = freeStateEx.m_used ++ [0] ∧
     (poolGet true freeStateEx).2.m_all.length = freeStateEx.m_all.length ∧
     ((poolGet true freeStateEx).2.m_all.getD 0 dfltSlot).m_refCount = 1) ∧
    ((poolGet true initPool).1 = initPool.m_all.length ∧
     (poolGet true initPool).2.m_all.length = initPool.m_all.length + 1 ∧
     (poolGet true initPool).2.m_used =
       initPool.m_used ++ [initPool.m_all.length] ∧
     ((poolGet true initPool).2.m_all.getD initPool.m_all.length
        dfltSlot).m_refCount = 1 ∧
     ((poolGet true initPool).2.m_all.getD initPool.m_all.length
        dfltSlot).m_id = initPool.m_all.length) :=
  ⟨(poolGet_behavior true freeStateEx freeStateEx_wf (by decide)).1 0 [] rfl,
   (poolGet_behavior true initPool poolWF_init (by decide)).2.1 rfl⟩

/-! ## C3: behaviour of Return -/

/-- C3: for an id currently in `m_used` (with `m_used` duplicate-free
and the id in range, both guaranteed by well-formedness), `Return(id)`
tears the slot down to idle — frame-buffer registration removed, every
GEM handle closed (the corresponding kernel calls are emitted), frame
data dropped — removes the id from `m_used` and appends it to `m_free`;
and when every slot on the free list was idle before the call, every
slot on the free list is idle after it, so a subsequent `Get()` (which
serializes with `Return` through the pool lock) can only observe the
slot in `m_free` fully idle. -/
theorem poolReturn_spec (s : PoolState) (id : Nat)
    (hid : id ∈ s.m_used) (hnd : s.m_used.Nodup) (hlen : id < s.m_all.length)
    (hfree : ∀ i ∈ s.m_free, SlotIdle (s.m_all.getD i dfltSlot)) :
    SlotIdle ((poolReturn id s).2.m_all.getD id dfltSlot) ∧
    id ∉ (poolReturn id s).2.m_used ∧
    id ∈ (poolReturn id s).2.m_free ∧
    ((s.m_all.getD id dfltSlot).m_fb_id ≠ 0 →
      KernelCall.rmFB (s.m_all.getD id dfltSlot).m_fb_id ∈ (poolReturn id s).1) ∧
    (∀ h ∈ (s.m_all.getD id dfltSlot).m_handles, h ≠ 0 →
      KernelCall.gemClose h ∈ (poolReturn id s).1) ∧
    (∀ i ∈ (poolReturn id s).2.m_free,
      SlotIdle ((poolReturn id s).2.m_all.getD i dfltSlot)) := by
  refine ⟨?_, ?_, ?_, ?_, ?_, ?_⟩
  · simp only [poolReturn]
    rw [getD_modifySlot_eq _ _ _ hlen]
    exact slotUnref_idle _
  · simp only [poolReturn, eraseFirst_eq_erase]
    intro hc
    exact ((hnd.mem_erase_iff).mp hc).1 rfl
  · simp [poolReturn]
  · intro hfb
    show KernelCall.rmFB (s.m_all.getD id dfltSlot).m_fb_id ∈
      (slotUnref (s.m_all.getD id dfltSlot)).1
    set b := s.m_all.getD id dfltSlot with hb
    simp [slotUnref, hfb]
  · intro h hmem h0
    have hcl : KernelCall.gemClose h ∈
        (closeHandles (s.m_all.getD id dfltSlot).m_handles).1 :=
      gemClose_mem_closeHandles _ h hmem h0
    show KernelCall.gemClose h ∈ (slotUnref (s.m_all.getD id dfltSlot)).1
    set b := s.m_all.getD id dfltSlot with hb
    simp only [slotUnref]
    exact List.mem_append.mpr (Or.inr hcl)
  · intro i hif
    by_cases hieq : i = id
    · subst hieq
      simp only [poolReturn]
      rw [getD_modifySlot_eq _ _ _ hlen]
      exact slotUnref_idle _
    · simp only [poolReturn, List.mem_append, List.mem_singleton] at hif
      rcases hif with h1 | h1
      · simp only [poolReturn]
        rw [getD_modifySlot_ne _ _ _ _ hieq]
        exact hfree i h1
      · exact absurd h1 hieq

/-- Witness for C3: return the single live slot of a one-slot pool. -/
theorem poolReturn_spec_witness :
    SlotIdle ((poolReturn 0 (poolGet true initPool).2).2.m_all.getD 0 dfltSlot) ∧
    0 ∉ (poolReturn 0 (poolGet true initPool).2).2.m_used ∧
    0 ∈ (poolReturn 0 (poolGet true initPool).2).2.m_free :=
  have h := poolReturn_spec (poolGet true initPool).2 0 (by decide) (by decide)
    (by decide) (by decide)
  ⟨h.1, h.2.1, h.2.2.1⟩

/-! ## C4: SetRef -/

/-- C4 counterexample: `SetRef` on a live slot does not release the
held kernel resources before taking the new frame — after
`SetRef(new_frame)` on a slot holding frame-buffer registration 5 and
GEM handles 7, 7, 9, the slot holds the new frame's data yet still
holds the previous occupant's registration and handles (and `SetRef`
emits no kernel release call at all: `av_frame_move_ref` only touches
the frame object). -/
theorem setRef_keeps_kernel_resources_cex :
    (slotSetRef liveSlotEx (FrameData.holding 9)).m_pFrame =
      some (FrameData.holding 9) ∧
    (slotSetRef liveSlotEx (FrameData.holding 9)).m_fb_id = 5 ∧
    (slotSetRef liveSlotEx (FrameData.holding 9)).m_handles = [7, 0, 7, 9] := by
  decide

/-- C4 amended: `SetRef(new_frame)` replaces only the frame data — it
drops the previously held frame contents and takes ownership of the new
frame — leaving `m_fb_id`, `m_handles` and the reference count
untouched; it performs no kernel-resource release, so a live slot keeps
its previous kernel handles.  Called on an idle slot with an allocated
frame object (its only use, in `GetPicture` after `Get` hands out a
slot torn down by `Return`), the old-frame release is a no-op and the
slot afterwards holds exactly the new frame's data and no kernel
resources. -/
theorem setRef_spec (b : Slot) (f : FrameData) :
    (slotSetRef b f).m_fb_id = b.m_fb_id ∧
    (slotSetRef b f).m_handles = b.m_handles ∧
    (slotSetRef b f).m_refCount = b.m_refCount ∧
    (∀ fd, b.m_pFrame = some fd → (slotSetRef b f).m_pFrame = some f) ∧
    (b.m_pFrame = none → (slotSetRef b f).m_pFrame = none) ∧
    (SlotIdle b → ∀ fd, b.m_pFrame = some fd →
      (slotSetRef b f).m_pFrame = some f ∧
      (slotSetRef b f).m_fb_id = 0 ∧
      ∀ h ∈ (slotSetRef b f).m_handles, h = 0) := by
  refine ⟨rfl, rfl, rfl, ?_, ?_, ?_⟩
  · intro fd hfd; simp [slotSetRef, hfd]
  · intro hfd; simp [slotSetRef, hfd]
  · intro hidle fd hfd
    exact ⟨by simp [slotSetRef, hfd], hidle.1, hidle.2.1⟩

/-- Witness for C4 (amended) at an idle slot with an empty frame
object. -/
theorem setRef_spec_witness :
    (slotSetRef idleSlotEx (FrameData.holding 4)).m_pFrame =
      some (FrameData.holding 4) ∧
    (slotSetRef idleSlotEx (FrameData.holding 4)).m_fb_id = 0 ∧
    ∀ h ∈ (slotSetRef idleSlotEx (FrameData.holding 4)).m_handles, h = 0 :=
  (setRef_spec idleSlotEx (FrameData.holding 4)).2.2.2.2.2
    (by decide) FrameData.empty rfl

/-! ## C5: idempotent teardown -/

/-- C5: `Unref` is idempotent — on an idle slot it is a no-op emitting
no kernel call, so a second `Unref` right after a first one issues no
kernel release; and in a single `Unref` the held frame-buffer
registration is removed exactly once and each held GEM handle entry is
closed exactly as often as it is held. -/
theorem slotUnref_idempotent (b : Slot) :
    (slotUnref (slotUnref b).2).1 = [] ∧
    (slotUnref (slotUnref b).2).2 = (slotUnref b).2 ∧
    (SlotIdle b → slotUnref b = ([], b)) ∧
    (slotUnref b).1.count (KernelCall.rmFB b.m_fb_id) =
      (if b.m_fb_id ≠ 0 then 1 else 0) ∧
    (∀ h, h ≠ 0 →
      (slotUnref b).1.count (KernelCall.gemClose h) = b.m_handles.count h) := by
  have hsecond := slotUnref_of_idle _ (slotUnref_idle b)
  have hrm_not_close : ∀ x, KernelCall.rmFB x ∉ (closeHandles b.m_handles).1 := by
    intro x hc
    obtain ⟨h, h1, _, _⟩ := closeHandles_fst_shape b.m_handles _ hc
    exact KernelCall.noConfusion h1
  refine ⟨?_, ?_, slotUnref_of_idle b, ?_, ?_⟩
  · rw [hsecond]
  · rw [hsecond]
  · by_cases hfb : b.m_fb_id = 0
    · simp only [slotUnref, hfb, ne_eq, not_true_eq_false, ite_false,
        reduceIte, List.nil_append]
      rw [List.count_eq_zero]
      exact hrm_not_close 0
    · have h1 : (slotUnref b).1 =
          KernelCall.rmFB b.m_fb_id :: (closeHandles b.m_handles).1 := by
        simp [slotUnref, hfb]
      rw [h1]
      rw [List.count_cons_self]
      rw [List.count_eq_zero.mpr (hrm_not_close b.m_fb_id)]
      simp [hfb]
  · intro h h0
    have hnc : (KernelCall.gemClose h) ∉
        (if b.m_fb_id ≠ 0 then [KernelCall.rmFB b.m_fb_id] else []) := by
      by_cases hfb : b.m_fb_id = 0 <;> simp [hfb]
    show ((if b.m_fb_id ≠ 0 then [KernelCall.rmFB b.m_fb_id] else []) ++
      (closeHandles b.m_handles).1).count (KernelCall.gemClose h) =
        b.m_handles.count h
    rw [List.count_append]
    rw [List.count_eq_zero.mpr hnc]
    rw [closeHandles_count b.m_handles h h0]
    omega

/-- Witness for C5: a live slot torn down twice, a concrete idle slot,
and the doubly held handle 7 closed twice. -/
theorem slotUnref_idempotent_witness :
    (slotUnref (slotUnref liveSlotEx).2).1 = [] ∧
    slotUnref idleSlotEx = ([], idleSlotEx) ∧
    (slotUnref liveSlotEx).1.count (KernelCall.gemClose 7) =
      liveSlotEx.m_handles.count 7 :=
  ⟨(slotUnref_idempotent liveSlotEx).1,
   (slotUnref_idempotent idleSlotEx).2.2.1 (by decide),
   (slotUnref_idempotent liveSlotEx).2.2.2.2 7 (by decide)⟩

/-! ## C6: teardown order and failure policy -/

/-- C6: during teardown the frame-buffer registration is removed first
— when held, `drmModeRmFB` is the head of the emitted call list and
everything after it is a GEM close — and every held memory handle is
closed afterwards; the source discards the kernel's per-call results,
so for any assignment `res` of success or failure to the calls the
attempted calls and the final (idle) slot state are exactly the same:
no single release failure stops the remaining releases. -/
theorem unref_release_order (b : Slot) (res : KernelCall → Bool) :
    (b.m_fb_id ≠ 0 →
      (slotUnref b).1 =
        KernelCall.rmFB b.m_fb_id :: (closeHandles b.m_handles).1) ∧
    (∀ c ∈ (closeHandles b.m_handles).1, ∃ h, c = KernelCall.gemClose h) ∧
    (∀ h ∈ b.m_handles, h ≠ 0 → KernelCall.gemClose h ∈ (slotUnref b).1) ∧
    ((slotUnrefR res b).1.map Prod.fst = (slotUnref b).1) ∧
    (slotUnrefR res b).2 = (slotUnref b).2 ∧
    SlotIdle (slotUnrefR res b).2 := by
  have hmap : (slotUnrefR res b).1.map Prod.fst = (slotUnref b).1 := by
    by_cases hfb : b.m_fb_id = 0 <;>
      simp [slotUnrefR, slotUnref, hfb, closeHandlesR_fst_map]
  have hsnd : (slotUnrefR res b).2 = (slotUnref b).2 := by
    simp [slotUnrefR, slotUnref, closeHandlesR_snd]
  refine ⟨?_, ?_, ?_, hmap, hsnd, ?_⟩
  · intro hfb; simp [slotUnref, hfb]
  · intro c hc
    obtain ⟨h, h1, _, _⟩ := closeHandles_fst_shape b.m_handles c hc
    exact ⟨h, h1⟩
  · intro h hmem h0
    have hcl := gemClose_mem_closeHandles b.m_handles h hmem h0
    show KernelCall.gemClose h ∈
      (if b.m_fb_id ≠ 0 then [KernelCall.rmFB b.m_fb_id] else []) ++
        (closeHandles b.m_handles).1
    exact List.mem_append.mpr (Or.inr hcl)
  · rw [hsnd]; exact slotUnref_idle b

/-- Witness for C6 at a live slot with every kernel call failing. -/
theorem unref_release_order_witness :
    (slotUnref liveSlotEx).1 =
      KernelCall.rmFB liveSlotEx.m_fb_id ::
        (closeHandles liveSlotEx.m_handles).1 ∧
    KernelCall.gemClose 9 ∈ (slotUnref liveSlotEx).1 ∧
    ((slotUnrefR (fun _ => false) liveSlotEx).1.map Prod.fst =
      (slotUnref liveSlotEx).1) ∧
    SlotIdle (slotUnrefR (fun _ => false) liveSlotEx).2 :=
  have h := unref_release_order liveSlotEx (fun _ => false)
  ⟨h.1 (by decide), h.2.2.1 9 (by decide) (by decide), h.2.2.2.1, h.2.2.2.2.2⟩

/-! ## C7: monotonic growth -/

/-- C7: the pool grows monotonically — `Get` creates no new slot while
`m_free` is non-empty (the slot table keeps its length), any single
`Get` or `Return` step only extends the table of slot ids (no slot is
ever removed or replaced), and after any `Return` the free list is
non-empty, so the next `Get` cannot increase the slot count:
exhausting and then returning slots stops the growth. -/
theorem pool_monotonic_growth (s : PoolState) (st : Step) :
    (∀ ok, s.m_free ≠ [] →
      (poolGet ok s).2.m_all.length = s.m_all.length) ∧
    (∃ t, (stepPool st s).m_all.map Slot.m_id =
      s.m_all.map Slot.m_id ++ t) ∧
    (∀ id, (poolReturn id s).2.m_free ≠ []) := by
  refine ⟨?_, ?_, ?_⟩
  · intro ok hne
    cases hfree : s.m_free with
    | nil => exact absurd hfree hne
    | cons idx rest => simp [poolGet, hfree, modifySlot_length]
  · cases st with
    | get ok =>
      cases hfree : s.m_free with
      | cons idx rest =>
        refine ⟨[], ?_⟩
        simp only [stepPool, poolGet, hfree, List.append_nil]
        exact map_id_modifySlot acquireSlot (fun b => rfl) idx s.m_all
      | nil =>
        refine ⟨[s.m_all.length], ?_⟩
        simp [stepPool, poolGet, hfree, acquireSlot, newSlot]
    | ret id =>
      refine ⟨[], ?_⟩
      simp only [stepPool, poolReturn, List.append_nil]
      exact map_id_modifySlot _ (fun b => by simp [slotUnref]) id s.m_all
  · intro id
    simp [poolReturn]

/-- Witness for C7: a Get on a pool with a free slot allocates nothing,
and a Return step only extends the id table. -/
theorem pool_monotonic_growth_witness :
    (poolGet true freeStateEx).2.m_all.length = freeStateEx.m_all.length ∧
    (∃ t, (stepPool (Step.ret 0) freeStateEx).m_all.map Slot.m_id =
      freeStateEx.m_all.map Slot.m_id ++ t) :=
  ⟨(pool_monotonic_growth freeStateEx (Step.ret 0)).1 true (by decide),
   (pool_monotonic_growth freeStateEx (Step.ret 0)).2.1⟩

/-! ## C8: Return on a non-used id -/

/-- C8 counterexample: on the pool whose single slot 0 is already on
the free list (so 0 is not in `m_used`), a second `Return(0)` raises no
assertion and yields no error — `Return`'s only outputs are the emitted
kernel calls and the new state — and it silently mutates the pool,
leaving `m_used` untouched and appending a duplicate 0 to `m_free`. -/
theorem poolReturn_double_return_cex :
    0 ∉ poolOneFree.m_used ∧
    (poolReturn 0 poolOneFree).2.m_used = poolOneFree.m_used ∧
    (poolReturn 0 poolOneFree).2.m_free = [0, 0] ∧
    (poolReturn 0 poolOneFree).2 ≠ poolOneFree := by
  decide

/-- C8 amended: `Return(id)` performs no membership check and offers no
observable signal — called with an id not currently in `m_used` it
still tears the slot down, leaves `m_used` unchanged (the erase loop
finds nothing) and appends `id` to `m_free`, so a double return
silently duplicates the id on the free list. -/
theorem poolReturn_no_membership_check (s : PoolState) (id : Nat)
    (h : id ∉ s.m_used) :
    (poolReturn id s).2.m_used = s.m_used ∧
    (poolReturn id s).2.m_free = s.m_free ++ [id] := by
  constructor
  · show eraseFirst id s.m_used = s.m_used
    rw [eraseFirst_eq_erase]
    exact List.erase_of_not_mem h
  · rfl

/-- Witness for C8 (amended) at the double return of slot 0. -/
theorem poolReturn_no_membership_check_witness :
    (poolReturn 0 poolOneFree).2.m_used = poolOneFree.m_used ∧
    (poolReturn 0 poolOneFree).2.m_free = poolOneFree.m_free ++ [0] :=
  poolReturn_no_membership_check poolOneFree 0 (by decide)

/-! ## C9: allocation failure inside Get -/

/-- Return codes of `CDVDVideoCodec::GetPicture`. -/
inductive VCReturn where
  | VC_NONE : VCReturn
  | VC_ERROR : VCReturn
  | VC_BUFFER : VCReturn
  | VC_PICTURE : VCReturn
  | VC_EOF : VCReturn
deriving DecidableEq

/-- The publication tail of `CDVDVideoCodecDRMPRIME::GetPicture`
(lines 497–507), entered once `avcodec_receive_frame` has succeeded:
fetch a buffer from the pool, `SetRef` the decoded frame into it,
publish it as the picture's video buffer, and return `VC_PICTURE` —
unconditionally, with no check on the buffer. -/
def getPicturePublish (allocOK : Bool) (s : PoolState) (frame : FrameData) :
    VCReturn × PoolState × Nat :=
  let r := poolGet allocOK s
  (VCReturn.VC_PICTURE,
   { r.2 with m_all := modifySlot (fun b => slotSetRef b frame) r.1 r.2.m_all },
   r.1)

/-- C9 counterexample: when the allocation path's `av_frame_alloc`
fails (`allocOK = false`) on the empty pool, `Get` does not surface any
failure — it hands out slot 0, placed in `m_used`, whose frame storage
is null — and the publication tail of `GetPicture` still returns
`VC_PICTURE` with that defective slot as the published buffer instead
of reporting a decode failure. -/
theorem getPicture_publishes_defective_cex :
    (poolGet false initPool).1 = 0 ∧
    0 ∈ (poolGet false initPool).2.m_used ∧
    ((poolGet false initPool).2.m_all.getD 0 dfltSlot).m_pFrame = none ∧
    (getPicturePublish false initPool (FrameData.holding 1)).1 =
      VCReturn.VC_PICTURE ∧
    ((getPicturePublish false initPool
        (FrameData.holding 1)).2.1.m_all.getD 0 dfltSlot).m_pFrame = none := by
  decide

/-- C9 amended: the pool's `Get` has no failure channel — it always
returns an id that is placed in `m_used`; when the allocation path runs
with a failed `av_frame_alloc` the fresh slot simply carries no frame
storage; and the publication tail of `GetPicture` returns `VC_PICTURE`
unconditionally, publishing whatever buffer `Get` produced. -/
theorem poolGet_never_fails (s : PoolState) (f : FrameData) :
    (∀ ok, (poolGet ok s).1 ∈ (poolGet ok s).2.m_used) ∧
    (s.m_free = [] →
      ((poolGet false s).2.m_all.getD (poolGet false s).1
        dfltSlot).m_pFrame = none) ∧
    (∀ ok, (getPicturePublish ok s f).1 = VCReturn.VC_PICTURE) := by
  refine ⟨?_, ?_, ?_⟩
  · intro ok
    cases hfree : s.m_free with
    | cons idx rest => simp [poolGet, hfree]
    | nil => simp [poolGet, hfree]
  · intro hfree
    simp only [poolGet, hfree]
    rw [getD_append_length]
    simp [acquireSlot, newSlot]
  · intro ok
    rfl

/-- Witness for C9 (amended) on the empty pool. -/
theorem poolGet_never_fails_witness :
    (poolGet false initPool).1 ∈ (poolGet false initPool).2.m_used ∧
    ((poolGet false initPool).2.m_all.getD (poolGet false initPool).1
      dfltSlot).m_pFrame = none ∧
    (getPicturePublish true initPool (FrameData.holding 2)).1 =
      VCReturn.VC_PICTURE :=
  have h := poolGet_never_fails initPool (FrameData.holding 2)
  ⟨h.1 false, h.2.1 rfl, h.2.2 true⟩

/-! ## C10: FIFO recycling of the free list -/

/-- C10: the free list is a FIFO queue — `Get` pops the id at the front
of `m_free`, `Return` appends to the back, and after returning first
`a` then `b` to a pool with an empty free list, the next `Get` reuses
`a`, the least recently freed id. -/
theorem free_list_fifo (s : PoolState) (ok : Bool) (a b : Nat) :
    (∀ idx rest, s.m_free = idx :: rest →
      (poolGet ok s).1 = idx ∧ (poolGet ok s).2.m_free = rest) ∧
    (poolReturn a s).2.m_free = s.m_free ++ [a] ∧
    (s.m_free = [] →
      (poolGet ok (poolReturn b (poolReturn a s).2).2).1 = a) := by
  refine ⟨?_, rfl, ?_⟩
  · intro idx rest hfree
    constructor <;> simp [poolGet, hfree]
  · intro hfree
    show (poolGet ok (poolReturn b (poolReturn a s).2).2).1 = a
    have h1 : (poolReturn b (poolReturn a s).2).2.m_free = [a, b] := by
      show ((poolReturn a s).2.m_free ++ [b]) = [a, b]
      show ((s.m_free ++ [a]) ++ [b]) = [a, b]
      rw [hfree]
      rfl
    simp [poolGet, h1]

/-- Witness for C10: pop from a concrete non-empty free list, and the
first-freed slot of the empty pool is the first reused. -/
theorem free_list_fifo_witness :
    ((poolGet true freeStateEx).1 = 0 ∧
      (poolGet true freeStateEx).2.m_free = []) ∧
    (poolGet true (poolReturn 1 (poolReturn 0
      (poolGet true (poolGet true initPool).2).2).2).2).1 = 0 :=
  ⟨(free_list_fifo freeStateEx true 3 4).1 0 [] rfl,
   (free_list_fifo (poolGet true (poolGet true initPool).2).2 true 0 1).2.2 rfl⟩

end DRMPrime
